import Mathlib

/-!
Verification of the drawdown-detection and option-outcome backtesting engine
(`src/main.py` of the options-analysis repository).

The relevant Python functions are shallowly embedded as executable Lean
definitions:

* `fetch_daily_closes`  — `fetch_daily_closes` (main.py 45-62): provider candles
  to a date-indexed close series, error on zero candles.
* `fetchAllCloses`      — `fetch_all_closes` (main.py 64-93): per-ticker fetch
  outcomes processed in *completion order* (`as_completed`), failures printed,
  successes concatenated column-wise and the row index sorted (`sort_index`).
* `dropna`, `pctChange4`, `dropIdx` — the drawdown detector
  (`analyze_ticker`, main.py 104-107): `s = closes.dropna()`,
  `pct4 = s.pct_change(4)`, `drop_dates = pct4[pct4 <= -0.10].index`.
* `pyMin`, `selectPut`, `processTrigger`, `evalOutcome`, `recordTrial` — the
  option-chain matcher, implied-volatility filter and outcome evaluator
  (`analyze_ticker`, main.py 109-152).  Python`s `min(xs, key=f)` (first
  minimum wins on ties) is `pyMin`; a `none` result of `processTrigger` models
  an uncaught Python exception (KeyError / IndexError / ValueError) aborting
  the run, while `some (t, s)` is the (trials, successes) increment of one
  trigger.
* `mainResults`         — the active per-ticker report loop (`main`,
  main.py 214-234).

Numbers: Python floats are modelled as `ℚ`; epoch-ms timestamps and calendar
dates as `ℤ` (the conversion `pd.to_datetime(unit="ms")` is injective and
monotone, so ordering statements transfer).  The float/str round-trip of
strike keys (`float(k)` / `str(strike)`, main.py 133-135) is modelled by
`parseFloat` / `strOfFloat` on decimal numerals, the decimal values on which
Python float parsing and printing are exact.
-/

namespace OptionsAnalysis

/-- A date-indexed close-price series (`pd.Series` of one ticker). -/
abbrev Series := List (Int × ℚ)

/-! ## Drawdown detector (`analyze_ticker`, main.py 104-107) -/

/-- `closes.dropna()`: drop the absent cells of a ticker column. -/
def dropna (closes : List (Int × Option ℚ)) : Series :=
  closes.filterMap (fun p => p.2.map (fun v => (p.1, v)))

/-- `s.pct_change(4)`: entry `i` is `s[i]/s[i-4] - 1`, undefined (`NaN`,
here `none`) for the first four positions. -/
def pctChange4 (prices : List ℚ) : List (Option ℚ) :=
  (List.range prices.length).map (fun i =>
    if 4 ≤ i then some (prices.getD i 0 / prices.getD (i - 4) 0 - 1) else none)

/-- The boolean mask `pct4 <= -0.10`; a `NaN` (`none`) entry compares false,
exactly as in pandas. -/
def leNegTenPct : Option ℚ → Bool
  | some p => decide (p ≤ -(1/10 : ℚ))
  | none => false

/-- Index positions of `pct4[pct4 <= -0.10]`: the drawdown trigger positions
of a (already `dropna`-ed) price list. -/
def dropIdx (prices : List ℚ) : List ℕ :=
  (List.range prices.length).filter
    (fun i => leNegTenPct ((pctChange4 prices).getD i none))

lemma pctChange4_getD (prices : List ℚ) (i : ℕ) (h : i < prices.length) :
    (pctChange4 prices).getD i none =
      if 4 ≤ i then some (prices.getD i 0 / prices.getD (i - 4) 0 - 1) else none := by
  unfold pctChange4
  rw [List.getD_eq_getElem?_getD, List.getElem?_map, List.getElem?_range h]
  rfl

lemma mem_dropIdx (prices : List ℚ) (i : ℕ) :
    i ∈ dropIdx prices ↔
      4 ≤ i ∧ i < prices.length ∧
        prices.getD i 0 / prices.getD (i - 4) 0 - 1 ≤ -(1/10 : ℚ) := by
  unfold dropIdx
  rw [List.mem_filter, List.mem_range]
  constructor
  · rintro ⟨hi, hcond⟩
    rw [pctChange4_getD prices i hi] at hcond
    by_cases h4 : 4 ≤ i
    · rw [if_pos h4] at hcond
      exact ⟨h4, hi, of_decide_eq_true hcond⟩
    · rw [if_neg h4] at hcond
      exact absurd hcond (by simp [leNegTenPct])
  · rintro ⟨h4, hi, hle⟩
    refine ⟨hi, ?_⟩
    rw [pctChange4_getD prices i hi, if_pos h4]
    exact decide_eq_true hle

/-- C1: on the series with absent dates dropped first, a drawdown event is
emitted at position `i` iff `price(i)/price(i-4) - 1 ≤ -0.10`, and never for
`i < 4`.  The positivity hypothesis scopes the statement to genuine price
series (where rational division agrees with the float arithmetic of the
source; the source never divides by zero there). -/
theorem drawdown_event_iff (closes : List (Int × Option ℚ)) (i : ℕ)
    (_hpos : ∀ p ∈ dropna closes, 0 < p.2) :
    (i ∈ dropIdx ((dropna closes).map Prod.snd) ↔
       4 ≤ i ∧ i < (dropna closes).length ∧
       ((dropna closes).map Prod.snd).getD i 0 /
           ((dropna closes).map Prod.snd).getD (i - 4) 0 - 1 ≤ -(1/10 : ℚ)) ∧
    (i < 4 → i ∉ dropIdx ((dropna closes).map Prod.snd)) := by
  have h := mem_dropIdx ((dropna closes).map Prod.snd) i
  rw [List.length_map] at h
  refine ⟨h, fun hlt hmem => ?_⟩
  exact absurd (h.mp hmem).1 (by omega)

/-- The concrete series of spec §8's drawdown scenario. -/
def scenarioCloses : List (Int × Option ℚ) :=
  [(0, some 100), (1, some 95), (2, some 90), (3, some 85), (4, some 88)]

lemma scenarioCloses_dropna :
    dropna scenarioCloses = [(0, 100), (1, 95), (2, 90), (3, 85), (4, 88)] := by
  norm_num [scenarioCloses, dropna, List.filterMap_cons]

/-- Witness for C1, the scenario of spec §8: closes `[100, 95, 90, 85, 88]`
give `88/100 - 1 = -0.12 ≤ -0.10`, one event at position 4; and position 2
(fewer than 4 prior observations) emits none. -/
theorem drawdown_event_iff_witness :
    4 ∈ dropIdx ((dropna scenarioCloses).map Prod.snd) ∧
    2 ∉ dropIdx ((dropna scenarioCloses).map Prod.snd) := by
  have hpos : ∀ p ∈ dropna scenarioCloses, 0 < p.2 := by
    rw [scenarioCloses_dropna]
    rintro ⟨a, b⟩ hp
    norm_num at hp
    rcases hp with ⟨_, rfl⟩ | ⟨_, rfl⟩ | ⟨_, rfl⟩ | ⟨_, rfl⟩ | ⟨_, rfl⟩ <;> norm_num
  constructor
  · apply (drawdown_event_iff scenarioCloses 4 hpos).1.mpr
    rw [scenarioCloses_dropna]
    norm_num [List.getD]
  · exact (drawdown_event_iff scenarioCloses 2 hpos).2 (by norm_num)

/-! ## Price history fetcher (`fetch_daily_closes`, main.py 45-62) -/

/-- A provider candle: epoch-millisecond timestamp and close price. -/
structure Candle where
  datetime : Int
  close : ℚ
deriving DecidableEq

/-- `fetch_daily_closes`: raises (`Except.error`) on zero candles, otherwise
returns the close series exactly in provider order (the source builds the
DataFrame from `data` as-is and neither sorts nor de-duplicates). -/
def fetch_daily_closes (symbol : String) (candles : List Candle) : Except String Series :=
  if candles.isEmpty then Except.error ("No data for " ++ symbol)
  else Except.ok (candles.map (fun c => (c.datetime, c.close)))

/-- Date index of a fetch result (empty on error). -/
def datesOf : Except String Series → List Int
  | Except.ok s => s.map Prod.fst
  | Except.error _ => []

/-- C9: the fetcher fails, with the `No data` error, exactly when the provider
returns zero candles; it never returns an empty or partial series instead. -/
theorem fetch_error_iff_zero_candles (symbol : String) (candles : List Candle) :
    fetch_daily_closes symbol candles = Except.error ("No data for " ++ symbol) ↔
      candles = [] := by
  unfold fetch_daily_closes
  cases candles <;> simp

/-- Witness for C9 at a concrete symbol. -/
theorem fetch_error_iff_zero_candles_witness :
    fetch_daily_closes "AAPL" [] = Except.error ("No data for " ++ "AAPL") :=
  (fetch_error_iff_zero_candles "AAPL" []).mpr rfl

/-- C8 counterexample: duplicate-date candles (and out-of-order candles) pass
through unchanged, so the returned series is neither de-duplicated (last value
winning) nor sorted: its date index `[1, 1, 0]` is not strictly increasing. -/
theorem fetch_no_sort_dedup_cex :
    fetch_daily_closes "X" [⟨1, 4⟩, ⟨1, 5⟩, ⟨0, 3⟩] =
      Except.ok [((1:Int), (4:ℚ)), (1, 5), (0, 3)] ∧
    ¬ List.Sorted (· < ·)
        (datesOf (fetch_daily_closes "X" [⟨1, 4⟩, ⟨1, 5⟩, ⟨0, 3⟩])) := by
  constructor
  · rfl
  · intro h
    have : (1:Int) < 1 := List.rel_of_sorted_cons h 1 (by simp [fetch_daily_closes, datesOf])
    omega

/-- C8 amended: the fetcher returns the provider's candles in provider order
(timestamps converted, close column extracted); consequently its output is
sorted and duplicate-free exactly when the provider response already is. -/
theorem fetch_preserves_provider_order (symbol : String) (candles : List Candle)
    (h : candles ≠ []) :
    fetch_daily_closes symbol candles =
      Except.ok (candles.map (fun c => (c.datetime, c.close))) ∧
    (List.Sorted (· < ·) (candles.map Candle.datetime) →
      List.Sorted (· < ·) (datesOf (fetch_daily_closes symbol candles))) := by
  have hne : candles.isEmpty = false := by
    cases candles
    · exact absurd rfl h
    · rfl
  constructor
  · unfold fetch_daily_closes
    rw [hne]
    rfl
  · intro hs
    unfold fetch_daily_closes
    rw [hne]
    simpa [datesOf, Function.comp] using hs

/-- Witness for C8's amended statement on a one-candle response. -/
theorem fetch_preserves_provider_order_witness :
    fetch_daily_closes "X" [⟨1, 2⟩] = Except.ok [((1:Int), (2:ℚ))] ∧
    List.Sorted (· < ·) (datesOf (fetch_daily_closes "X" [⟨1, 2⟩])) :=
  ⟨(fetch_preserves_provider_order "X" [⟨1, 2⟩] (by simp)).1,
   (fetch_preserves_provider_order "X" [⟨1, 2⟩] (by simp)).2 (by simp)⟩

/-! ## Multi-ticker aggregator (`fetch_all_closes`, main.py 64-93)

`as_completed` yields the futures in a nondeterministic completion order; the
embedding makes that order an explicit parameter `completionOrder`, a
permutation of the input positions.  The loop appends successful series (and
prints a report per failure) in completion order, then
`pd.concat(series, axis=1, join="outer").sort_index()` builds the table:
columns in the order of the `series` list, row index the sorted union of the
per-series dates.  `pd.concat` of an *empty* list raises
`ValueError: No objects to concatenate`, modelled as `Except.error`. -/

/-- The outer-joined price table: its columns, in order, with their series. -/
structure PriceTable where
  colSeries : List (String × Series)
deriving DecidableEq

/-- Column (ticker) labels in table order. -/
def PriceTable.cols (t : PriceTable) : List String := t.colSeries.map Prod.fst

/-- Row index after `sort_index()`: sorted union of all contributing dates. -/
def PriceTable.rowIndex (t : PriceTable) : List Int :=
  List.insertionSort (· ≤ ·) ((t.colSeries.flatMap (fun c => c.2.map Prod.fst)).dedup)

/-- Outer-join cell: absent (`none`) where a ticker lacks the date. -/
def PriceTable.cell (t : PriceTable) (sym : String) (d : Int) : Option ℚ :=
  (t.colSeries.find? (fun c => c.1 = sym)).bind
    (fun c => (c.2.find? (fun p => p.1 = d)).map Prod.snd)

/-- The futures in completion order (`as_completed`). -/
def completedOf (fetches : List (String × Except String Series)) (completionOrder : List ℕ) :
    List (String × Except String Series) :=
  completionOrder.filterMap (fun i => fetches[i]?)

/-- The `series` list: successful results, appended in the traversal order. -/
def okSeries (l : List (String × Except String Series)) : List (String × Series) :=
  l.filterMap (fun p =>
    match p.2 with
    | Except.ok s => some (p.1, s)
    | Except.error _ => none)

/-- The per-failure reports printed by the `except` branch. -/
def failReports (l : List (String × Except String Series)) : List String :=
  l.filterMap (fun p =>
    match p.2 with
    | Except.error e => some (p.1 ++ " failed: " ++ e)
    | Except.ok _ => none)

/-- `fetch_all_closes`, given the per-ticker fetch outcomes (in input order)
and the completion order of the worker pool. -/
def fetchAllCloses (fetches : List (String × Except String Series))
    (completionOrder : List ℕ) : Except String PriceTable × List String :=
  let completed := completedOf fetches completionOrder
  (if (okSeries completed).isEmpty then Except.error "No objects to concatenate"
   else Except.ok ⟨okSeries completed⟩,
   failReports completed)

/-- Column labels of a table result (empty on error). -/
def colsOf : Except String PriceTable → List String
  | Except.ok t => t.cols
  | Except.error _ => []

/-- Row index of a table result (empty on error). -/
def rowsOf : Except String PriceTable → List Int
  | Except.ok t => t.rowIndex
  | Except.error _ => []

/-- Tickers whose fetch succeeded, in input order. -/
def okNames (fetches : List (String × Except String Series)) : List String :=
  fetches.filterMap (fun p =>
    match p.2 with
    | Except.ok _ => some p.1
    | Except.error _ => none)

/-- C5 (code bug demonstration): when every fetch fails, the failure is still
reported per ticker, but `pd.concat` of the empty series list raises an
uncaught `ValueError`, aborting the run instead of completing the batch with
the failed tickers omitted. -/
theorem all_fetches_fail_aborts_run :
    fetchAllCloses [("AAPL", Except.error "503 Service Unavailable")] [0] =
      (Except.error "No objects to concatenate",
       ["AAPL" ++ " failed: " ++ "503 Service Unavailable"]) := by
  rfl

/-- C6 counterexample: two successful fetches for input order `["A", "B"]`,
completing in the order `[1, 0]`, produce columns `["B", "A"]` — the columns
follow completion order, not the input ticker order. -/
theorem cols_follow_completion_order_cex :
    List.Perm [1, 0] (List.range 2) ∧
    colsOf (fetchAllCloses
        [("A", Except.ok [((0:Int), (1:ℚ))]), ("B", Except.ok [((0:Int), (2:ℚ))])]
        [1, 0]).1 = ["B", "A"] ∧
    ["B", "A"] ≠ ["A", "B"] := by
  refine ⟨by decide, ?_, by decide⟩
  rfl

lemma filterMap_getElem?_range {α : Type} (l : List α) :
    (List.range l.length).filterMap (fun i => l[i]?) = l := by
  induction l with
  | nil => rfl
  | cons x xs ih =>
    rw [List.length_cons, List.range_succ_eq_map, List.filterMap_cons, List.filterMap_map]
    have hf : ((fun i => (x :: xs)[i]?) ∘ Nat.succ) = fun i => xs[i]? := by
      funext i
      simp
    simp only [List.getElem?_cons_zero, hf, ih]

lemma completedOf_perm (fetches : List (String × Except String Series))
    (o : List ℕ) (h : o.Perm (List.range fetches.length)) :
    (completedOf fetches o).Perm fetches := by
  have := h.filterMap (fun i => fetches[i]?)
  rwa [filterMap_getElem?_range] at this

lemma okSeries_map_fst (l : List (String × Except String Series)) :
    (okSeries l).map Prod.fst = okNames l := by
  induction l with
  | nil => rfl
  | cons p rest ih =>
    rcases p with ⟨sym, r⟩
    cases r <;> simp [okSeries, okNames, List.filterMap_cons] at * <;> exact ih

lemma fetchAllCloses_fst_of_empty (fetches : List (String × Except String Series))
    (o : List ℕ) (h : (okSeries (completedOf fetches o)).isEmpty = true) :
    (fetchAllCloses fetches o).1 = Except.error "No objects to concatenate" := by
  simp [fetchAllCloses, h]

lemma fetchAllCloses_fst_of_ne (fetches : List (String × Except String Series))
    (o : List ℕ) (h : (okSeries (completedOf fetches o)).isEmpty = false) :
    (fetchAllCloses fetches o).1 = Except.ok ⟨okSeries (completedOf fetches o)⟩ := by
  simp [fetchAllCloses, h]

/-- C6 amended: the row index and the column *set* of the output are
deterministic — rows are the dates sorted ascending and the columns are, up to
order, exactly the successfully fetched tickers — but the column *order*
follows the nondeterministic completion order (see the counterexample), not
the input order. -/
theorem fetchAllCloses_deterministic_rows_colset
    (fetches : List (String × Except String Series)) (o₁ o₂ : List ℕ)
    (h₁ : o₁.Perm (List.range fetches.length))
    (h₂ : o₂.Perm (List.range fetches.length)) :
    rowsOf (fetchAllCloses fetches o₁).1 = rowsOf (fetchAllCloses fetches o₂).1 ∧
    List.Sorted (· ≤ ·) (rowsOf (fetchAllCloses fetches o₁).1) ∧
    (colsOf (fetchAllCloses fetches o₁).1).Perm (okNames fetches) := by
  have hp₁ : (okSeries (completedOf fetches o₁)).Perm (okSeries fetches) :=
    ((completedOf_perm fetches o₁ h₁).filterMap _)
  have hp₂ : (okSeries (completedOf fetches o₂)).Perm (okSeries fetches) :=
    ((completedOf_perm fetches o₂ h₂).filterMap _)
  have hp : (okSeries (completedOf fetches o₁)).Perm (okSeries (completedOf fetches o₂)) :=
    hp₁.trans hp₂.symm
  have hempty : (okSeries (completedOf fetches o₁)).isEmpty =
      (okSeries (completedOf fetches o₂)).isEmpty := by
    have hlen := hp.length_eq
    rcases h1 : okSeries (completedOf fetches o₁) with _ | ⟨a, l⟩ <;>
      rcases h2 : okSeries (completedOf fetches o₂) with _ | ⟨b, m⟩ <;>
      rw [h1, h2] at hlen <;> simp at hlen ⊢
  cases he : (okSeries (completedOf fetches o₁)).isEmpty with
  | true =>
    have he₂ : (okSeries (completedOf fetches o₂)).isEmpty = true := hempty.symm.trans he
    rw [fetchAllCloses_fst_of_empty fetches o₁ he, fetchAllCloses_fst_of_empty fetches o₂ he₂]
    have hnil : okSeries fetches = [] := by
      have hlen := hp₁.length_eq
      rw [List.isEmpty_iff_length_eq_zero] at he
      rw [← List.length_eq_zero]
      omega
    have hnames : okNames fetches = [] := by
      rw [← okSeries_map_fst, hnil]
      rfl
    rw [hnames]
    exact ⟨rfl, by simp [rowsOf], by simp [colsOf]⟩
  | false =>
    have he₂ : (okSeries (completedOf fetches o₂)).isEmpty = false := hempty.symm.trans he
    rw [fetchAllCloses_fst_of_ne fetches o₁ he, fetchAllCloses_fst_of_ne fetches o₂ he₂]
    refine ⟨?_, ?_, ?_⟩
    · show PriceTable.rowIndex _ = PriceTable.rowIndex _
      unfold PriceTable.rowIndex
      exact List.eq_of_perm_of_sorted
        ((List.perm_insertionSort _ _).trans
          ((hp.flatMap_right _).dedup.trans (List.perm_insertionSort _ _).symm))
        (List.sorted_insertionSort _ _) (List.sorted_insertionSort _ _)
    · exact List.sorted_insertionSort _ _
    · show ((okSeries (completedOf fetches o₁)).map Prod.fst).Perm (okNames fetches)
      rw [okSeries_map_fst]
      have hm := hp₁.map Prod.fst
      rwa [okSeries_map_fst, okSeries_map_fst] at hm

/-- Witness for C6's amended statement: one successful fetch, the identity
completion order on both sides. -/
theorem fetchAllCloses_deterministic_rows_colset_witness :
    rowsOf (fetchAllCloses [("A", Except.ok [((0:Int), (1:ℚ))])] [0]).1 =
      rowsOf (fetchAllCloses [("A", Except.ok [((0:Int), (1:ℚ))])] [0]).1 ∧
    List.Sorted (· ≤ ·)
      (rowsOf (fetchAllCloses [("A", Except.ok [((0:Int), (1:ℚ))])] [0]).1) ∧
    (colsOf (fetchAllCloses [("A", Except.ok [((0:Int), (1:ℚ))])] [0]).1).Perm
      (okNames [("A", Except.ok [((0:Int), (1:ℚ))])]) :=
  fetchAllCloses_deterministic_rows_colset _ [0] [0] (by decide) (by decide)

/-! ## Per-ticker report loop (`main`, main.py 214-234)

The active loop walks `available` (the input ticker order filtered to the
table's columns), drops tickers with fewer than 5 observations (reported), and
records the drop-signal count; `pd.DataFrame(results).set_index("ticker")`
keeps that row order — no sort is applied. -/

/-- `int((pct4 <= -0.10).sum())` for one (already dropna-ed) column. -/
def dropCount (s : Series) : ℕ := (dropIdx (s.map Prod.snd)).length

/-- The final results table as (ticker, drop_signals) rows, in emitted order.
Extracting a ticker's column of the outer-joined table and applying
`.dropna()` recovers exactly its stored series. -/
def mainResults (tickers : List String) (t : PriceTable) : List (String × ℕ) :=
  (tickers.filter (fun sym => t.cols.contains sym)).filterMap (fun sym =>
    match t.colSeries.find? (fun c => c.1 = sym) with
    | none => none
    | some c => if c.2.length < 5 then none else some (sym, dropCount c.2))

/-- A five-observation flat series (no drop signals), for the counterexample. -/
def flatSeries : Series := [(0, 1), (1, 1), (2, 1), (3, 1), (4, 1)]

/-- C7 counterexample: for the universe slice `["MSFT", "GOOGL"]` (the input
order of main.py's ticker list) the final table rows come out as
`["MSFT", "GOOGL"]` — input order, not sorted by ticker symbol
(`"GOOGL" < "MSFT"`). -/
theorem results_not_sorted_cex :
    (mainResults ["MSFT", "GOOGL"]
        ⟨[("MSFT", flatSeries), ("GOOGL", flatSeries)]⟩).map Prod.fst =
      ["MSFT", "GOOGL"] ∧
    ¬ List.Sorted (· ≤ ·)
      ((mainResults ["MSFT", "GOOGL"]
          ⟨[("MSFT", flatSeries), ("GOOGL", flatSeries)]⟩).map Prod.fst) := by
  have h : (mainResults ["MSFT", "GOOGL"]
      ⟨[("MSFT", flatSeries), ("GOOGL", flatSeries)]⟩).map Prod.fst =
      ["MSFT", "GOOGL"] := by rfl
  refine ⟨h, ?_⟩
  rw [h]
  intro hs
  have hle : "MSFT" ≤ "GOOGL" := List.rel_of_sorted_cons hs "GOOGL" (by simp)
  rw [String.le_iff_toList_le] at hle
  revert hle
  decide

lemma map_fst_filterMap_sublist {α β : Type} (f : α → Option (α × β))
    (h : ∀ a p, f a = some p → p.1 = a) (l : List α) :
    ((l.filterMap f).map Prod.fst).Sublist l := by
  induction l with
  | nil => simp
  | cons x xs ih =>
    rw [List.filterMap_cons]
    cases hfx : f x with
    | none => exact ih.cons x
    | some p =>
      rw [List.map_cons, h x p hfx]
      exact ih.cons₂ x

/-- C7 amended: the final per-ticker table rows appear in the order of the
input ticker universe (restricted to available tickers with enough history) —
an order-preserving sublist of the input list, not a sort by symbol. -/
theorem results_follow_input_order (tickers : List String) (t : PriceTable) :
    ((mainResults tickers t).map Prod.fst).Sublist tickers := by
  unfold mainResults
  refine (map_fst_filterMap_sublist _ ?_ _).trans (List.filter_sublist tickers)
  intro a p hf
  cases hfind : t.colSeries.find? (fun c => c.1 = a) with
  | none => rw [hfind] at hf; exact absurd hf (by simp)
  | some c =>
    rw [hfind] at hf
    dsimp only at hf
    split at hf
    · exact absurd hf (by simp)
    · cases hf
      rfl

/-! ## Float/str round-trip of strike keys (main.py 133-135)

`strikes = [float(k) for k in strikes_map]` and `strikes_map[str(strike)]`.
Python floats are modelled as `ℚ`; `parseFloat` is `float(...)` on decimal
numerals and `strOfFloat` is `str(...)` of a float with a finite decimal
expansion (integral values print as `"100.0"`, fractional ones with trailing
zeros stripped — Python's shortest-repr behaviour on such values). -/

/-- Numeric value of a decimal digit character. -/
def digitVal (c : Char) : ℕ :=
  if c = '0' then 0 else if c = '1' then 1 else if c = '2' then 2 else if c = '3' then 3
  else if c = '4' then 4 else if c = '5' then 5 else if c = '6' then 6 else if c = '7' then 7
  else if c = '8' then 8 else if c = '9' then 9 else 0

/-- Decimal digit character of a value `< 10`. -/
def digitChar (d : ℕ) : Char :=
  if d = 0 then '0' else if d = 1 then '1' else if d = 2 then '2' else if d = 3 then '3'
  else if d = 4 then '4' else if d = 5 then '5' else if d = 6 then '6' else if d = 7 then '7'
  else if d = 8 then '8' else '9'

/-- Decimal digit characters to a natural number. -/
def charsToNat (cs : List Char) : ℕ := cs.foldl (fun acc c => acc * 10 + digitVal c) 0

/-- Split a character list at the first decimal point, if any. -/
def splitDot : List Char → List Char × Option (List Char)
  | [] => ([], none)
  | c :: rest =>
    if c = '.' then ([], some rest)
    else
      let p := splitDot rest
      (c :: p.1, p.2)

/-- `float(k)` on a (nonnegative) decimal numeral string. -/
def parseFloat (s : String) : ℚ :=
  match splitDot s.data with
  | (ip, none) => (charsToNat ip : ℚ)
  | (ip, some fp) => (charsToNat ip : ℚ) + (charsToNat fp : ℚ) / (10 : ℚ) ^ fp.length

/-- Decimal digits of a natural number (fuel-indexed, most significant first). -/
def natToCharsAux : ℕ → ℕ → List Char → List Char
  | 0, _, acc => acc
  | fuel + 1, n, acc =>
    if n < 10 then digitChar n :: acc
    else natToCharsAux fuel (n / 10) (digitChar (n % 10) :: acc)

/-- Decimal digits of a natural number. -/
def natToChars (n : ℕ) : List Char := natToCharsAux (n + 1) n []

/-- Least `k` (below the fuel bound) with `q * 10^k` integral. -/
def minPow10Aux (q : ℚ) : ℕ → ℕ → Option ℕ
  | _, 0 => none
  | k, fuel + 1 => if (q * 10 ^ k).den = 1 then some k else minPow10Aux q (k + 1) fuel

/-- Digits of `n / 10^k` as `"intpart.fracpart"` (fracpart zero-padded to `k`
digits, or the single digit `0` when `k = 0`), with an optional sign. -/
def strOfFloatAux (sign : List Char) (n k : ℕ) : String :=
  if k = 0 then String.mk (sign ++ natToChars n ++ ['.', '0'])
  else String.mk (sign ++ natToChars (n / 10 ^ k) ++ '.' ::
    (List.replicate (k - (natToChars (n % 10 ^ k)).length) '0' ++ natToChars (n % 10 ^ k)))

/-- `str(...)` of a float whose value has a finite decimal expansion: the
shortest decimal digit string (integral values print as `"100.0"`, trailing
zeros of the fraction are stripped, matching Python float repr on such
values). -/
def strOfFloat (q : ℚ) : String :=
  match minPow10Aux q 0 21 with
  | none => "inf"
  | some k => strOfFloatAux (if q.num < 0 then ['-'] else []) (q * 10 ^ k).num.natAbs k

/-! ## Option-chain matcher and outcome evaluator (`analyze_ticker`, main.py 109-152) -/

/-- One contract entry of a chain payload; only the `volatility` field is read
(`opt.get("volatility")`, absent modelled as `none`). -/
structure Contract where
  volatility : Option ℚ
deriving DecidableEq

/-- `putExpDateMap[exp_key]`: strike-string keys to contract lists, in payload
order. -/
abbrev StrikesMap := List (String × List Contract)

/-- `putExpDateMap`: expiration dates (the `parse_key` image of the keys, as
day numbers) to strike maps, in payload order. -/
abbrev PutMap := List (Int × StrikesMap)

/-- `strikes = [float(k) for k in strikes_map]`. -/
def strikesOf (sm : StrikesMap) : List ℚ := sm.map (fun p => parseFloat p.1)

/-- Python's `min(xs, key=f)`: the first element attaining the minimal key;
none on an empty list (where Python raises `ValueError`). -/
def pyMin {α β : Type} [LinearOrder β] (f : α → β) : List α → Option α
  | [] => none
  | x :: xs => some (xs.foldl (fun b a => if f a < f b then a else b) x)

/-- Lines 125-135: nearest expiration by day distance, then nearest strike to
the trigger price, then the `strikes_map[str(strike)]` lookup.  `none` models
an uncaught exception (`ValueError` on an empty strike map, `KeyError` on a
failed string lookup). -/
def selectPut (putMap : PutMap) (target : Int) (priceOnDt : ℚ) :
    Option (Int × ℚ × List Contract) :=
  match pyMin (fun e => |e - target|) (putMap.map Prod.fst) with
  | none => none
  | some bestKey =>
    match putMap.find? (fun p => p.1 = bestKey) with
    | none => none
    | some esm =>
      match pyMin (fun x => |x - priceOnDt|) (strikesOf esm.2) with
      | none => none
      | some strike =>
        match esm.2.find? (fun p => p.1 = strOfFloat strike) with
        | none => none
        | some kcs => some (bestKey, strike, kcs.2)

/-- Lines 144-150: success increment from the first close on/after expiration
(0 when the expiration is beyond the available history). -/
def evalOutcome (s : Series) (expiration : Int) (strike : ℚ) : ℕ :=
  match s.find? (fun q => expiration ≤ q.1) with
  | none => 0
  | some q => if strike < q.2 then 1 else 0

/-- Lines 141-150: a recorded trial — the trial increment is 1 regardless of
whether the outcome can be evaluated. -/
def recordTrial (s : Series) (expiration : Int) (strike : ℚ) : ℕ × ℕ :=
  (1, evalOutcome s expiration strike)

/-- One iteration of the trigger loop (main.py 109-150): `some (t, su)` is the
(trials, successes) increment, `none` an uncaught exception. -/
def processTrigger (s : Series) (dt : Int) (putMap : PutMap) : Option (ℕ × ℕ) :=
  if putMap.isEmpty then some (0, 0)
  else
    match s.find? (fun p => p.1 = dt) with
    | none => none
    | some pr =>
      match selectPut putMap (dt + 30) pr.2 with
      | none => none
      | some sel =>
        match sel.2.2.head? with
        | none => none
        | some opt =>
          match opt.volatility with
          | none => some (0, 0)
          | some iv =>
            if iv ≤ 6/10 then some (0, 0)
            else some (recordTrial s sel.1 sel.2.1)

/-- `analyze_ticker`: dropna, detect drawdown dates, fold the trigger loop. -/
def analyzeTicker (closes : List (Int × Option ℚ)) (chainFor : Int → PutMap) :
    Option (ℕ × ℕ) :=
  let s := dropna closes
  let dropDates := (dropIdx (s.map Prod.snd)).filterMap (fun i => (s.map Prod.fst)[i]?)
  dropDates.foldlM
    (fun acc dt => (processTrigger s dt (chainFor dt)).map
      (fun r => (acc.1 + r.1, acc.2 + r.2)))
    ((0, 0) : ℕ × ℕ)

/-! `pyMin` agrees with Mathlib's `List.argmin`, whose tie-break (first minimum
in list order) is exactly Python's `min`. -/

lemma foldl_argAux_some {α β : Type} [LinearOrder β] (f : α → β) (xs : List α) (x : α) :
    xs.foldl (List.argAux (fun b c => f b < f c)) (some x) =
      some (xs.foldl (fun b a => if f a < f b then a else b) x) := by
  induction xs generalizing x with
  | nil => rfl
  | cons y ys ih =>
    rw [List.foldl_cons, List.foldl_cons]
    have hstep : List.argAux (fun b c => f b < f c) (some x) y =
        some (if f y < f x then y else x) := by
      show (if f y < f x then some y else some x) = some (if f y < f x then y else x)
      rw [apply_ite some]
    rw [hstep, ih]

lemma pyMin_eq_argmin {α β : Type} [LinearOrder β] (f : α → β) (l : List α) :
    pyMin f l = List.argmin f l := by
  cases l with
  | nil => rfl
  | cons x xs =>
    rw [List.argmin, List.foldl_cons]
    show some _ = xs.foldl (List.argAux (fun b c => f b < f c)) (some x)
    rw [foldl_argAux_some]

lemma pyMin_eq_some_iff {α β : Type} [DecidableEq α] [LinearOrder β] {f : α → β}
    {l : List α} {m : α} :
    pyMin f l = some m ↔
      m ∈ l ∧ (∀ a ∈ l, f m ≤ f a) ∧ ∀ a ∈ l, f a ≤ f m → l.indexOf m ≤ l.indexOf a := by
  rw [pyMin_eq_argmin]
  exact List.argmin_eq_some_iff

/-- C2: whenever the matcher makes a selection, the chosen expiration is a
listed expiration of minimal absolute day-distance to the target
(trigger + 30), the chosen strike is a listed strike of that expiration of
minimal absolute distance to the trigger price, and each tie is broken by the
first minimum in payload order (no earlier listed candidate does as well). -/
theorem matcher_selects_nearest_exp_strike (putMap : PutMap) (target : Int) (price : ℚ)
    (e : Int) (k : ℚ) (cs : List Contract)
    (hsel : selectPut putMap target price = some (e, k, cs)) :
    (e ∈ putMap.map Prod.fst ∧
      (∀ x ∈ putMap.map Prod.fst, |e - target| ≤ |x - target|) ∧
      (∀ x ∈ putMap.map Prod.fst, |x - target| ≤ |e - target| →
        (putMap.map Prod.fst).indexOf e ≤ (putMap.map Prod.fst).indexOf x)) ∧
    (∃ sm, putMap.find? (fun p => p.1 = e) = some (e, sm) ∧
      k ∈ strikesOf sm ∧
      (∀ x ∈ strikesOf sm, |k - price| ≤ |x - price|) ∧
      (∀ x ∈ strikesOf sm, |x - price| ≤ |k - price| →
        (strikesOf sm).indexOf k ≤ (strikesOf sm).indexOf x)) := by
  unfold selectPut at hsel
  split at hsel
  · exact Option.noConfusion hsel
  rename_i bestKey h1
  split at hsel
  · exact Option.noConfusion hsel
  rename_i esm h2
  split at hsel
  · exact Option.noConfusion hsel
  rename_i strike h3
  split at hsel
  · exact Option.noConfusion hsel
  rename_i kcs _h4
  injection hsel with hsel
  simp only [Prod.mk.injEq] at hsel
  obtain ⟨hbe, hsk, _hcs⟩ := hsel
  subst hbe hsk
  have hkey : esm.1 = bestKey := by
    have h := List.find?_some h2
    simpa using h
  obtain ⟨e', sm⟩ := esm
  cases hkey
  exact ⟨pyMin_eq_some_iff.mp h1, ⟨sm, h2, pyMin_eq_some_iff.mp h3⟩⟩

lemma parseFloat_100_0 : parseFloat "100.0" = 100 := by
  simp [parseFloat, splitDot, charsToNat, digitVal]

lemma parseFloat_90_0 : parseFloat "90.0" = 90 := by
  simp [parseFloat, splitDot, charsToNat, digitVal]

lemma parseFloat_plain_100 : parseFloat "100" = 100 := by
  simp [parseFloat, splitDot, charsToNat, digitVal]

lemma strOfFloat_natCast (n : ℕ) :
    strOfFloat (n : ℚ) = String.mk (natToChars n ++ ['.', '0']) := by
  have h : minPow10Aux (n : ℚ) 0 21 = some 0 := by
    rw [minPow10Aux]
    simp
  rw [strOfFloat, h]
  dsimp only
  rw [if_neg (by simp)]
  have hn : ((n : ℚ) * 10 ^ 0).num.natAbs = n := by simp
  rw [hn, strOfFloatAux, if_pos rfl, List.nil_append]

lemma strOfFloat_100 : strOfFloat 100 = "100.0" := by
  have h := strOfFloat_natCast 100
  norm_num at h
  rw [h]
  decide

lemma strOfFloat_90 : strOfFloat 90 = "90.0" := by
  have h := strOfFloat_natCast 90
  norm_num at h
  rw [h]
  decide

lemma find?_key_self {β : Type} (e : Int) (b : β) (rest : List (Int × β)) :
    List.find? (fun p => p.1 = e) ((e, b) :: rest) = some (e, b) :=
  List.find?_cons_of_pos _ (by simp)

/-- Evaluation helper: the matcher on a chain whose best expiration lists a
single strike whose key round-trips. -/
lemma selectPut_singleton (e target : Int) (price : ℚ) (ks : String) (cs : List Contract)
    (hround : strOfFloat (parseFloat ks) = ks) :
    selectPut [(e, [(ks, cs)])] target price = some (e, parseFloat ks, cs) := by
  unfold selectPut
  have h1 : pyMin (fun x => |x - target|) ([(e, [(ks, cs)])].map Prod.fst) = some e := by
    simp [pyMin]
  rw [h1]
  dsimp only
  rw [find?_key_self]
  dsimp only
  have h3 : pyMin (fun x => |x - price|) (strikesOf [(ks, cs)]) = some (parseFloat ks) := by
    simp [pyMin, strikesOf]
  rw [h3]
  dsimp only
  have h4 : List.find? (fun p => p.1 = strOfFloat (parseFloat ks)) [(ks, cs)] =
      some (ks, cs) := by
    rw [hround]
    exact List.find?_cons_of_pos _ (by simp)
  rw [h4]

/-- Witness for C2 on a two-expiration chain (the spec §8 scenario, 28 vs 35
days out with target 30): expiration 28 is selected, with minimal distance,
and strike 100 from its listed strikes. -/
theorem matcher_selects_nearest_exp_strike_witness :
    (28 : Int) ∈ ([((28 : Int), [("100.0", [Contract.mk none])]),
        ((35 : Int), [("90.0", [Contract.mk none])])].map Prod.fst) ∧
    (∀ x ∈ ([((28 : Int), [("100.0", [Contract.mk none])]),
        ((35 : Int), [("90.0", [Contract.mk none])])].map Prod.fst),
      |(28 : Int) - 30| ≤ |x - 30|) ∧
    (∀ x ∈ ([((28 : Int), [("100.0", [Contract.mk none])]),
        ((35 : Int), [("90.0", [Contract.mk none])])].map Prod.fst),
      |x - 30| ≤ |(28 : Int) - 30| →
      (([((28 : Int), [("100.0", [Contract.mk none])]),
        ((35 : Int), [("90.0", [Contract.mk none])])].map Prod.fst).indexOf 28 ≤
       ([((28 : Int), [("100.0", [Contract.mk none])]),
        ((35 : Int), [("90.0", [Contract.mk none])])].map Prod.fst).indexOf x)) := by
  have hsel : selectPut [((28 : Int), [("100.0", [Contract.mk none])]),
      ((35 : Int), [("90.0", [Contract.mk none])])] 30 101 =
      some (28, 100, [Contract.mk none]) := by
    unfold selectPut
    have h1 : pyMin (fun x : Int => |x - 30|)
        ([((28 : Int), [("100.0", [Contract.mk none])]),
          ((35 : Int), [("90.0", [Contract.mk none])])].map Prod.fst) = some 28 := by
      simp only [List.map_cons, List.map_nil, pyMin, List.foldl_cons, List.foldl_nil]
      norm_num
    rw [h1]
    dsimp only
    rw [find?_key_self]
    dsimp only
    have h3 : pyMin (fun x : ℚ => |x - 101|)
        (strikesOf [("100.0", [Contract.mk none])]) = some 100 := by
      simp only [strikesOf, List.map_cons, List.map_nil, pyMin, List.foldl_nil,
        parseFloat_100_0]
    rw [h3]
    dsimp only
    have h4 : List.find? (fun p => p.1 = strOfFloat 100) [("100.0", [Contract.mk none])] =
        some ("100.0", [Contract.mk none]) := by
      rw [strOfFloat_100]
      exact List.find?_cons_of_pos _ (by simp)
    rw [h4]
  exact (matcher_selects_nearest_exp_strike _ 30 101 28 100 [Contract.mk none] hsel).1

/-- C3: given a successful selection with first listed contract `opt`, the
trigger records a trial (trial count increment 1) iff the contract's implied
volatility is present and exceeds 0.60; when it is absent or at most 0.60 the
trigger is discarded with a (0, 0) increment. -/
theorem iv_filter_gates_trial (s : Series) (dt : Int) (putMap : PutMap)
    (pr : Int × ℚ) (e : Int) (k : ℚ) (cs : List Contract) (opt : Contract)
    (hne : putMap.isEmpty = false)
    (hpr : s.find? (fun p => p.1 = dt) = some pr)
    (hsel : selectPut putMap (dt + 30) pr.2 = some (e, k, cs))
    (hopt : cs.head? = some opt) :
    ((processTrigger s dt putMap).map Prod.fst = some 1 ↔
      ∃ iv, opt.volatility = some iv ∧ (6/10 : ℚ) < iv) ∧
    ((opt.volatility = none ∨ ∃ iv, opt.volatility = some iv ∧ iv ≤ (6/10 : ℚ)) →
      processTrigger s dt putMap = some (0, 0)) := by
  unfold processTrigger
  rw [if_neg (by simp [hne]), hpr]
  dsimp only
  rw [hsel]
  dsimp only
  rw [hopt]
  dsimp only
  cases hv : opt.volatility with
  | none =>
    constructor
    · simp
    · intro _
      rfl
  | some iv =>
    dsimp only
    by_cases hiv : iv ≤ 6/10
    · rw [if_pos hiv]
      constructor
      · constructor
        · intro h
          exact absurd h (by simp)
        · rintro ⟨iv', hiv', hgt⟩
          cases hiv'
          exact absurd hgt (not_lt.mpr hiv)
      · intro _
        rfl
    · rw [if_neg hiv]
      constructor
      · constructor
        · intro _
          exact ⟨iv, rfl, not_le.mp hiv⟩
        · intro _
          simp [recordTrial]
      · rintro (hnone | ⟨iv', hiv', hle⟩)
        · exact Option.noConfusion hnone
        · cases hiv'
          exact absurd hle hiv

lemma find?_first_on_or_after (expiration : Int) (pre suf : Series) (d : Int) (p : ℚ)
    (hpre : ∀ q ∈ pre, q.1 < expiration) (hd : expiration ≤ d) :
    (pre ++ (d, p) :: suf).find? (fun q => expiration ≤ q.1) = some (d, p) := by
  induction pre with
  | nil =>
    exact List.find?_cons_of_pos _ (by simpa using hd)
  | cons q qs ih =>
    rw [List.cons_append, List.find?_cons_of_neg]
    · exact ih (fun x hx => hpre x (List.mem_cons_of_mem q hx))
    · simp only [decide_eq_true_eq]
      exact not_le.mpr (hpre q (List.mem_cons_self q qs))

/-- C4: the outcome evaluator uses the first date of the series on or after
the expiration; the trial counts as a success iff the close there strictly
exceeds the strike, and when no such date exists the trial still counts
(trial increment 1) with no success increment. -/
theorem outcome_first_close_on_or_after_expiration (s : Series) (expiration : Int)
    (strike : ℚ) :
    ((∀ q ∈ s, q.1 < expiration) → recordTrial s expiration strike = (1, 0)) ∧
    (∀ pre d p suf, s = pre ++ (d, p) :: suf → (∀ q ∈ pre, q.1 < expiration) →
      expiration ≤ d →
      recordTrial s expiration strike = (1, if strike < p then 1 else 0)) := by
  constructor
  · intro hall
    unfold recordTrial evalOutcome
    have hnone : s.find? (fun q => expiration ≤ q.1) = none := by
      rw [List.find?_eq_none]
      intro x hx
      simp only [decide_eq_true_eq]
      exact not_le.mpr (hall x hx)
    rw [hnone]
  · intro pre d p suf hs hpre hd
    unfold recordTrial evalOutcome
    rw [hs, find?_first_on_or_after expiration pre suf d p hpre hd]

/-- Witness for C3: a matched contract with implied volatility 0.75 > 0.60
records a trial (trial increment 1). -/
theorem iv_filter_gates_trial_witness :
    (processTrigger [((0 : Int), (100 : ℚ))] 0
        [(25, [("90.0", [Contract.mk (some (3/4))])])]).map Prod.fst = some 1 := by
  have hround : strOfFloat (parseFloat "90.0") = "90.0" := by
    rw [parseFloat_90_0, strOfFloat_90]
  have hsel : selectPut [((25 : Int), [("90.0", [Contract.mk (some (3/4))])])] (0 + 30)
      (((0 : Int), (100 : ℚ)).2) = some (25, 90, [Contract.mk (some (3/4))]) := by
    rw [selectPut_singleton 25 (0 + 30) (((0 : Int), (100 : ℚ)).2) "90.0"
      [Contract.mk (some (3/4))] hround, parseFloat_90_0]
  exact (iv_filter_gates_trial [((0 : Int), (100 : ℚ))] 0
      [(25, [("90.0", [Contract.mk (some (3/4))])])] ((0 : Int), (100 : ℚ)) 25 90
      [Contract.mk (some (3/4))] (Contract.mk (some (3/4))) rfl (find?_key_self 0 100 [])
      hsel rfl).1.mpr ⟨3/4, rfl, by norm_num⟩

/-- Witness for C4, the spec §8 scenario shape: first close on/after the
expiration is 50 > strike 40, so the trial counts and succeeds. -/
theorem outcome_first_close_witness :
    recordTrial [((10 : Int), (50 : ℚ))] 5 40 = (1, 1) := by
  have h := (outcome_first_close_on_or_after_expiration [((10 : Int), (50 : ℚ))] 5 40).2
    [] 10 50 [] rfl (by simp) (by norm_num)
  rw [if_pos (by norm_num : (40 : ℚ) < 50)] at h
  exact h

/-! ## The strike-key lookup (C10) -/

lemma find?_key_of_mem {α β : Type} [DecidableEq α] (l : List (α × β)) (a : α)
    (h : a ∈ l.map Prod.fst) : ∃ b, l.find? (fun p => p.1 = a) = some (a, b) := by
  induction l with
  | nil => simp at h
  | cons q rest ih =>
    by_cases hq : q.1 = a
    · refine ⟨q.2, ?_⟩
      rw [List.find?_cons_of_pos _ (by simp [hq])]
      obtain ⟨q1, q2⟩ := q
      cases hq
      rfl
    · rw [List.map_cons] at h
      rcases List.mem_cons.mp h with h | h
      · exact absurd h.symm hq
      · obtain ⟨b, hb⟩ := ih h
        exact ⟨b, by rw [List.find?_cons_of_neg _ (by simp [hq]), hb]⟩

/-- C10 amended: (a) if every strike key of the chain round-trips through
float-then-str, the matcher's lookup is total (the selection succeeds);
(b) if no key of the selected expiration equals the canonical string of the
selected strike, the lookup raises an uncaught KeyError (crash, not a soft
skip); (c) such a crash aborts the whole trigger computation.  (The original
claim's "the nearest strike's key is non-canonical implies KeyError" is
refuted by the counterexample: a *different* key may equal the canonical
string.) -/
theorem strike_key_roundtrip_or_keyerror (putMap : PutMap) (target : Int) (price : ℚ) :
    ((putMap ≠ [] ∧ ∀ esm ∈ putMap, esm.2 ≠ [] ∧
        ∀ ks ∈ esm.2, strOfFloat (parseFloat ks.1) = ks.1) →
      (selectPut putMap target price).isSome) ∧
    (∀ e sm strike,
      pyMin (fun x => |x - target|) (putMap.map Prod.fst) = some e →
      putMap.find? (fun p => p.1 = e) = some (e, sm) →
      pyMin (fun x => |x - price|) (strikesOf sm) = some strike →
      sm.find? (fun p => p.1 = strOfFloat strike) = none →
      selectPut putMap target price = none) ∧
    (∀ s dt pr, putMap.isEmpty = false →
      s.find? (fun p => p.1 = dt) = some pr →
      selectPut putMap (dt + 30) pr.2 = none →
      processTrigger s dt putMap = none) := by
  refine ⟨?_, ?_, ?_⟩
  · rintro ⟨hne, hall⟩
    cases hpm : putMap with
    | nil => exact absurd hpm hne
    | cons p0 rest =>
      have h1 : pyMin (fun x => |x - target|) ((p0 :: rest).map Prod.fst) =
          some ((rest.map Prod.fst).foldl
            (fun b a => if |a - target| < |b - target| then a else b) p0.1) := by
        rw [List.map_cons]
        rfl
      set bk := (rest.map Prod.fst).foldl
        (fun b a => if |a - target| < |b - target| then a else b) p0.1 with hbk
      have hbkmem : bk ∈ (p0 :: rest).map Prod.fst := (pyMin_eq_some_iff.mp h1).1
      obtain ⟨sm, h2⟩ := find?_key_of_mem (p0 :: rest) bk hbkmem
      have hmem : (bk, sm) ∈ p0 :: rest := List.mem_of_find?_eq_some h2
      obtain ⟨hsmne, hround⟩ := hall (bk, sm) (hpm ▸ hmem)
      have hsne : strikesOf sm ≠ [] := by
        intro hcon
        exact hsmne (List.map_eq_nil_iff.mp hcon)
      cases hsm : strikesOf sm with
      | nil => exact absurd hsm hsne
      | cons st0 strest =>
        have h3 : pyMin (fun x => |x - price|) (strikesOf sm) =
            some (strest.foldl (fun b a => if |a - price| < |b - price| then a else b) st0) := by
          rw [hsm]
          rfl
        set strike := strest.foldl (fun b a => if |a - price| < |b - price| then a else b) st0
          with hstk
        have hstmem : strike ∈ strikesOf sm := (pyMin_eq_some_iff.mp h3).1
        obtain ⟨ks, hksmem, hkseq⟩ := List.mem_map.mp hstmem
        have h4 : (sm.find? (fun p => p.1 = strOfFloat strike)).isSome := by
          rw [← hkseq, hround ks hksmem]
          exact List.find?_isSome.mpr ⟨ks, hksmem, by simp⟩
        obtain ⟨kcs, h4⟩ := Option.isSome_iff_exists.mp h4
        unfold selectPut
        rw [h1]
        dsimp only
        rw [h2]
        dsimp only
        rw [h3]
        dsimp only
        rw [h4]
        rfl
  · intro e sm strike h1 h2 h3 h4
    unfold selectPut
    rw [h1]
    dsimp only
    rw [h2]
    dsimp only
    rw [h3]
    dsimp only
    rw [h4]
  · intro s dt pr hne hpr hsel
    unfold processTrigger
    rw [if_neg (by simp [hne]), hpr]
    dsimp only
    rw [hsel]

/-- Witness for C10's amended statement: a chain whose single strike key
`"100.0"` round-trips, so the selection succeeds. -/
theorem strike_key_roundtrip_or_keyerror_witness :
    (selectPut [((30 : Int), [("100.0", [Contract.mk none])])] 30 100).isSome := by
  apply (strike_key_roundtrip_or_keyerror
    [((30 : Int), [("100.0", [Contract.mk none])])] 30 100).1
  refine ⟨by simp, ?_⟩
  rintro ⟨e0, sm0⟩ hmem
  simp only [List.mem_singleton, Prod.mk.injEq] at hmem
  obtain ⟨rfl, rfl⟩ := hmem
  refine ⟨by simp, ?_⟩
  rintro ks hks
  simp only [List.mem_singleton] at hks
  subst hks
  rw [parseFloat_100_0, strOfFloat_100]

/-- C10 counterexample: the nearest strike's key `"100"` is not canonical
(`str(float("100")) = "100.0"`), yet no KeyError occurs, because the *other*
key `"100.0"` equals the canonical string: the trigger is processed (and a
trial is recorded from the contract stored under `"100.0"`). -/
theorem strike_key_lookup_cex :
    strOfFloat (parseFloat "100") ≠ "100" ∧
    processTrigger [((0 : Int), (100 : ℚ))] 0
      [(30, [("100", [Contract.mk (some 1)]), ("100.0", [Contract.mk (some 2)])])] =
      some (1, 0) := by
  constructor
  · rw [parseFloat_plain_100, strOfFloat_100]
    simp
  · have hsel : selectPut
        [((30 : Int), [("100", [Contract.mk (some 1)]), ("100.0", [Contract.mk (some 2)])])]
        (0 + 30) (((0 : Int), (100 : ℚ)).2) =
        some (30, 100, [Contract.mk (some 2)]) := by
      unfold selectPut
      have h1 : pyMin (fun x : Int => |x - (0 + 30)|)
          ([((30 : Int), [("100", [Contract.mk (some 1)]),
            ("100.0", [Contract.mk (some 2)])])].map Prod.fst) = some 30 := by
        simp [pyMin]
      rw [h1]
      dsimp only
      rw [find?_key_self]
      dsimp only
      have h3 : pyMin (fun x : ℚ => |x - ((0 : Int), (100 : ℚ)).2|)
          (strikesOf [("100", [Contract.mk (some 1)]), ("100.0", [Contract.mk (some 2)])]) =
          some 100 := by
        simp only [strikesOf, List.map_cons, List.map_nil, parseFloat_plain_100,
          parseFloat_100_0, pyMin, List.foldl_cons, List.foldl_nil]
        norm_num
      rw [h3]
      dsimp only
      have h4 : List.find? (fun p => p.1 = strOfFloat 100)
          [("100", [Contract.mk (some 1)]), ("100.0", [Contract.mk (some 2)])] =
          some ("100.0", [Contract.mk (some 2)]) := by
        rw [strOfFloat_100]
        rw [List.find?_cons_of_neg _ (by simp)]
        exact List.find?_cons_of_pos _ (by simp)
      rw [h4]
    unfold processTrigger
    rw [if_neg (by simp), find?_key_self]
    dsimp only
    rw [hsel]
    dsimp only
    rw [List.head?_cons]
    dsimp only
    rw [if_neg (by norm_num : ¬ (2 : ℚ) ≤ 6/10)]
    unfold recordTrial evalOutcome
    rw [List.find?_cons_of_neg _ (by simp), List.find?_nil]

end OptionsAnalysis
